import Mathlib

set_option maxHeartbeats 1000000
set_option maxRecDepth 4000

/-!
Shallow embedding of the bm_sbc network-device substrate.

Serial frame codec: `src/transports/uart_l2/cobs.c`, `crc32c.c`,
`frame_codec.c`.  Local-IPC port device: `src/net/virtual_port_device.cpp`.

Bytes are modelled as `Nat` with explicit `% 256` / `&&& 0xFF` where the C
code truncates through a `uint8_t` cast; buffers are `List Nat`; functions
that signal failure by returning 0 are modelled with `Option`.
-/

/-! ## CRC-32C (crc32c.c) -/

/-- Nibble-indexed CRC-32C lookup table (bit-reflected polynomial
0x82F63B78) from `crc32c.c`. -/
def crc32c_table : List Nat :=
  [0x00000000, 0x105EC76F, 0x20BD8EDE, 0x30E349B1,
   0x417B1DBC, 0x5125DAD3, 0x61C69362, 0x7198540D,
   0x82F63B78, 0x92A8FC17, 0xA24BB5A6, 0xB21572C9,
   0xC38D26C4, 0xD3D3E1AB, 0xE330A81A, 0xF36E6F75]

/-- One iteration of the `crc32c_update` loop: consume one data byte in two
nibble steps. -/
def crc32c_step (crc b : Nat) : Nat :=
  let c1 := (crc >>> 4) ^^^ crc32c_table.getD ((crc ^^^ b) &&& 0x0F) 0
  (c1 >>> 4) ^^^ crc32c_table.getD ((c1 ^^^ (b >>> 4)) &&& 0x0F) 0

/-- `crc32c_update` from `crc32c.c`: fold the per-byte step over the data. -/
def crc32c_update (crc : Nat) (data : List Nat) : Nat :=
  data.foldl crc32c_step crc

/-- `crc32c_finalize` from `crc32c.h`: XOR the accumulator with 0xFFFFFFFF. -/
def crc32c_finalize (crc : Nat) : Nat :=
  crc ^^^ 0xFFFFFFFF

/-- `crc32c` from `crc32c.c`: one-shot CRC over the whole input. -/
def crc32c (data : List Nat) : Nat :=
  crc32c_finalize (crc32c_update 0xFFFFFFFF data)

/-! ## COBS byte stuffing (cobs.c) -/

/-- Loop of `cobs_encode` from `cobs.c`.  `dst` holds the `dst_idx` bytes
written so far; the reserved slot for the pending code byte (at `codeIdx`)
holds a placeholder 0 until the C code backpatches `dst[code_idx] = code`.
`none` models the C function returning 0 on output-buffer overflow
(`dst_idx >= dst_len`).  In the case where the input ends exactly at a full
254-byte run, the final `dst[code_idx] = code` in C lands one past the
returned length; the returned prefix is unchanged, which `List.set` at
`dst.length` models exactly. -/
def cobsEncAux (dstLen : Nat) : List Nat → List Nat → Nat → Nat → Option (List Nat)
  | [], dst, codeIdx, code => some (dst.set codeIdx code)
  | b :: rest, dst, codeIdx, code =>
    if b = 0 then
      -- End of a non-zero run: write the code byte, reserve a new slot.
      if dstLen ≤ dst.length then none
      else cobsEncAux dstLen rest (dst.set codeIdx code ++ [0]) dst.length 1
    else
      if dstLen ≤ dst.length then none
      else
        if code + 1 = 255 then
          -- Maximum run length reached: close the block.
          if rest.isEmpty then
            cobsEncAux dstLen rest ((dst ++ [b]).set codeIdx 255) (dst ++ [b]).length 1
          else
            if dstLen ≤ (dst ++ [b]).length then none
            else cobsEncAux dstLen rest ((dst ++ [b]).set codeIdx 255 ++ [0]) (dst ++ [b]).length 1
        else cobsEncAux dstLen rest (dst ++ [b]) codeIdx (code + 1)

/-- `cobs_encode` from `cobs.c`: reserve the first code-byte slot (fails when
`dst_len` is 0), then run the loop with `code_idx = 0`, `code = 1`. -/
def cobs_encode (dstLen : Nat) (src : List Nat) : Option (List Nat) :=
  if dstLen = 0 then none
  else cobsEncAux dstLen src [0] 0 1

/-- `cobs_decode` loop from `cobs.c`.  `dst` is the output accumulated so
far; `none` models every `return 0` error path (zero code byte, run past the
end of the input, output overflow, zero byte inside a run). -/
def cobsDecAux (dstLen : Nat) (src : List Nat) (dst : List Nat) : Option (List Nat) :=
  match src with
  | [] => some dst
  | code :: rest =>
    if code = 0 then none
    else
      if rest.length < code - 1 then none
      else if dstLen < dst.length + (code - 1) then none
      else if (rest.take (code - 1)).any (fun x => x == 0) then none
      else
        if code < 255 ∧ ¬(rest.drop (code - 1)).isEmpty then
          if dstLen ≤ (dst ++ rest.take (code - 1)).length then none
          else cobsDecAux dstLen (rest.drop (code - 1)) (dst ++ rest.take (code - 1) ++ [0])
        else cobsDecAux dstLen (rest.drop (code - 1)) (dst ++ rest.take (code - 1))
termination_by src.length
decreasing_by
  · simpa using Nat.lt_succ_of_le (Nat.sub_le rest.length (code - 1))
  · simpa using Nat.lt_succ_of_le (Nat.sub_le rest.length (code - 1))

/-- `cobs_decode` from `cobs.c` (the input excludes the trailing 0x00
delimiter).  The C function returns 0 both on error and on a successful
empty decode; `Option` separates the two, and the only caller
(`frame_decode`) treats both identically via its minimum-length check. -/
def cobs_decode (dstLen : Nat) (src : List Nat) : Option (List Nat) :=
  if src.isEmpty then none
  else cobsDecAux dstLen src []

/-! ## Frame codec (frame_codec.c) -/

/-- `FRAME_CODEC_OVERHEAD` from `frame_codec.h`: 2 length bytes + 4 CRC bytes. -/
def FRAME_CODEC_OVERHEAD : Nat := 6

/-- `FRAME_CODEC_MAX_L2_SIZE` from `frame_codec.h`. -/
def FRAME_CODEC_MAX_L2_SIZE : Nat := 1522

/-- `COBS_ENCODE_MAX` from `cobs.h`. -/
def COBS_ENCODE_MAX (srcLen : Nat) : Nat := srcLen + srcLen / 254 + 1

/-- The pre-COBS payload built by `frame_encode`:
`[len_hi, len_lo, l2_frame..., crc32 (4 bytes, big-endian)]`, with the CRC
computed over length + frame bytes.  The `(uint8_t)` casts are `% 256`. -/
def frame_payload (l2 : List Nat) : List Nat :=
  let lenBytes := [(l2.length >>> 8) % 256, l2.length &&& 0xFF]
  let crc := crc32c (lenBytes ++ l2)
  lenBytes ++ l2 ++
    [(crc >>> 24) % 256, (crc >>> 16) % 256, (crc >>> 8) % 256, crc &&& 0xFF]

/-- `frame_encode` from `frame_codec.c`: build the payload, COBS-encode it
into the wire buffer (capacity `wire_len - 1`), append the 0x00 delimiter. -/
def frame_encode (wireLen : Nat) (l2 : List Nat) : Option (List Nat) :=
  if l2.length = 0 ∨ FRAME_CODEC_MAX_L2_SIZE < l2.length then none
  else
    let payload := frame_payload l2
    if wireLen < COBS_ENCODE_MAX payload.length + 1 then none
    else
      match cobs_encode (wireLen - 1) payload with
      | none => none
      | some enc => some (enc ++ [0])

/-- `frame_decode` from `frame_codec.c`: COBS-decode the wire bytes (which
exclude the trailing delimiter) into a buffer of 2 + 1522 + 4 bytes, check
the length field, the total length and the CRC, then copy out the frame.
`l2Cap` is the caller's output-buffer size (`l2_len`). -/
def frame_decode (l2Cap : Nat) (wire : List Nat) : Option (List Nat) :=
  if wire.isEmpty then none
  else
    match cobs_decode (2 + FRAME_CODEC_MAX_L2_SIZE + 4) wire with
    | none => none
    | some decoded =>
      if decoded.length < FRAME_CODEC_OVERHEAD then none
      else
        let frameLen := (decoded.getD 0 0) <<< 8 ||| decoded.getD 1 0
        if frameLen = 0 ∨ FRAME_CODEC_MAX_L2_SIZE < frameLen then none
        else if decoded.length ≠ 2 + frameLen + 4 then none
        else
          let crcComputed := crc32c (decoded.take (2 + frameLen))
          let crcReceived :=
            (decoded.getD (2 + frameLen) 0) <<< 24 |||
            (decoded.getD (2 + frameLen + 1) 0) <<< 16 |||
            (decoded.getD (2 + frameLen + 2) 0) <<< 8 |||
            decoded.getD (2 + frameLen + 3) 0
          if crcComputed ≠ crcReceived then none
          else if l2Cap < frameLen then none
          else some ((decoded.drop 2).take frameLen)

/-! ## COBS round-trip machinery -/

/-- The sequence of COBS groups the encoder emits: each group is a code byte
(run length + 1, or 255 for a full 254-byte run) followed by its run of
non-zero bytes.  `run` is the pending run of non-zero source bytes already
consumed; the cases mirror the branches of the `cobs_encode` loop. -/
def cobsGroups (run : List Nat) : List Nat → List Nat
  | [] => (run.length + 1) :: run
  | b :: rest =>
    if b = 0 then ((run.length + 1) :: run) ++ cobsGroups [] rest
    else if run.length = 253 then
      (255 :: (run ++ [b])) ++ (if rest.isEmpty then [] else cobsGroups [] rest)
    else cobsGroups (run ++ [b]) rest

theorem cobsGroups_length_lb (src : List Nat) :
    ∀ run : List Nat, run.length + 1 ≤ (cobsGroups run src).length := by
  induction src with
  | nil => intro run; simp [cobsGroups]
  | cons b rest ih =>
    intro run
    by_cases hb : b = 0
    · simp [cobsGroups, hb]
    · by_cases hr : run.length = 253
      · simp [cobsGroups, hb, hr]
      · have h := ih (run ++ [b])
        simp only [cobsGroups, if_neg hb, if_neg hr]
        simp only [List.length_append, List.length_cons, List.length_nil] at h ⊢
        omega

theorem cobsGroups_ne_nil (run src : List Nat) : cobsGroups run src ≠ [] := by
  intro h
  have := cobsGroups_length_lb src run
  rw [h] at this
  simp at this

theorem cobsGroups_length_ub (src : List Nat) :
    ∀ run : List Nat,
      (cobsGroups run src).length ≤
        1 + run.length + src.length + (run.length + src.length) / 254 := by
  induction src with
  | nil => intro run; simp [cobsGroups]; omega
  | cons b rest ih =>
    intro run
    by_cases hb : b = 0
    · have h := ih []
      simp only [cobsGroups, if_pos hb]
      simp only [List.length_append, List.length_cons, List.length_nil] at h ⊢
      omega
    · by_cases hr : run.length = 253
      · by_cases he : rest.isEmpty
        · rw [List.isEmpty_iff] at he
          subst he
          simp [cobsGroups, hb, hr]
        · have h := ih []
          simp only [cobsGroups, if_neg hb, if_pos hr, if_neg he]
          simp only [List.length_append, List.length_cons, List.length_nil] at h ⊢
          omega
      · have h := ih (run ++ [b])
        simp only [cobsGroups, if_neg hb, if_neg hr]
        simp only [List.length_append, List.length_cons, List.length_nil] at h ⊢
        omega

theorem cobsGroups_no_zero (src : List Nat) :
    ∀ run : List Nat, (∀ x ∈ run, x ≠ 0) →
      ∀ x ∈ cobsGroups run src, x ≠ 0 := by
  induction src with
  | nil =>
    intro run hrun x hx
    simp only [cobsGroups, List.mem_cons] at hx
    rcases hx with h | h
    · omega
    · exact hrun x h
  | cons b rest ih =>
    intro run hrun x hx
    by_cases hb : b = 0
    · simp only [cobsGroups, if_pos hb, List.mem_append, List.mem_cons] at hx
      rcases hx with (h | h) | h
      · omega
      · exact hrun x h
      · exact ih [] (by simp) x h
    · have hrb : ∀ y ∈ run ++ [b], y ≠ 0 := by
        intro y hy
        rcases List.mem_append.mp hy with h | h
        · exact hrun y h
        · simp at h; subst h; exact hb
      by_cases hr : run.length = 253
      · simp only [cobsGroups, if_neg hb, if_pos hr, List.mem_append, List.mem_cons] at hx
        rcases hx with (h | h) | h
        · omega
        · exact hrb x (List.mem_append.mpr (by simpa using h))
        · by_cases he : rest.isEmpty
          · simp [he] at h
          · simp only [if_neg he] at h
            exact ih [] (by simp) x h
      · simp only [cobsGroups, if_neg hb, if_neg hr] at hx
        exact ih (run ++ [b]) hrb x hx

/-- Backpatching the pending code byte: writing at the reserved slot turns
the placeholder into the code byte. -/
theorem set_backpatch (pre run : List Nat) (y : Nat) :
    (pre ++ 0 :: run).set pre.length y = pre ++ y :: run := by
  rw [List.set_append_right _ _ (Nat.le_refl _), Nat.sub_self, List.set_cons_zero]

/-- The `cobs_encode` loop, run from a state whose buffer is `pre` followed
by the reserved code slot and the pending run, produces exactly `pre`
followed by the group decomposition of the remaining input — provided the
destination capacity admits the final length. -/
theorem cobsEncAux_eq (dstLen : Nat) (src : List Nat) :
    ∀ pre run : List Nat, run.length ≤ 253 →
      pre.length + (cobsGroups run src).length ≤ dstLen →
      cobsEncAux dstLen src (pre ++ 0 :: run) pre.length (run.length + 1) =
        some (pre ++ cobsGroups run src) := by
  induction src with
  | nil =>
    intro pre run _ _
    simp only [cobsEncAux, cobsGroups]
    rw [set_backpatch]
  | cons b rest ih =>
    intro pre run hrun hcap
    by_cases hb : b = 0
    · -- zero byte: close the current group, reserve a new slot
      have hlb := cobsGroups_length_lb rest ([] : List Nat)
      have hg : (cobsGroups run (b :: rest)).length =
          run.length + 1 + (cobsGroups [] rest).length := by
        simp [cobsGroups, hb]; omega
      have hguard : ¬ dstLen ≤ (pre ++ 0 :: run).length := by
        simp only [List.length_append, List.length_cons]
        simp only [List.length_nil] at hlb
        omega
      simp only [cobsEncAux, if_pos hb, if_neg hguard]
      rw [set_backpatch]
      rw [show (pre ++ 0 :: run).length = (pre ++ (run.length + 1) :: run).length by simp]
      rw [show cobsGroups run (b :: rest) =
            ((run.length + 1) :: run) ++ cobsGroups [] rest by simp [cobsGroups, hb]]
      rw [← List.append_assoc]
      exact ih (pre ++ (run.length + 1) :: run) [] (by simp)
        (by simp only [List.length_append, List.length_cons, List.length_nil] at hg ⊢; omega)
    · by_cases hr : run.length = 253
      · -- the appended byte completes a 254-byte run
        have hguard : ¬ dstLen ≤ (pre ++ 0 :: run).length := by
          have hg0 : (cobsGroups run (b :: rest)).length =
              255 + (if rest.isEmpty then ([] : List Nat) else cobsGroups [] rest).length := by
            by_cases he : rest.isEmpty <;> (simp [cobsGroups, hb, hr, he]; try omega)
          simp only [List.length_append, List.length_cons]
          omega
        have h255 : run.length + 1 + 1 = 255 := by omega
        simp only [cobsEncAux, if_neg hb, if_neg hguard, if_pos h255]
        have hdst2 : (pre ++ 0 :: run) ++ [b] = pre ++ 0 :: (run ++ [b]) := by
          simp [List.append_assoc]
        by_cases he : rest.isEmpty
        · rw [List.isEmpty_iff] at he
          subst he
          simp only [List.isEmpty_nil, if_pos rfl]
          rw [hdst2, set_backpatch]
          simp only [cobsEncAux]
          rw [List.set_eq_of_length_le (by simp)]
          simp [cobsGroups, hb, hr]
        · have hne : ¬ rest.isEmpty = true := he
          have hlb := cobsGroups_length_lb rest ([] : List Nat)
          have hg : (cobsGroups run (b :: rest)).length =
              255 + (cobsGroups [] rest).length := by
            simp [cobsGroups, hb, hr, he]; omega
          have hguard2 : ¬ dstLen ≤ ((pre ++ 0 :: run) ++ [b]).length := by
            simp only [List.length_append, List.length_cons, List.length_nil]
            simp only [List.length_nil] at hlb
            omega
          simp only [hne, if_neg hguard2, Bool.false_eq_true, if_false]
          rw [hdst2, set_backpatch]
          rw [show (pre ++ 0 :: (run ++ [b])).length = (pre ++ 255 :: (run ++ [b])).length by simp]
          rw [show cobsGroups run (b :: rest) =
                (255 :: (run ++ [b])) ++ cobsGroups [] rest by simp [cobsGroups, hb, hr, he]]
          rw [← List.append_assoc]
          exact ih (pre ++ 255 :: (run ++ [b])) [] (by simp)
            (by simp only [List.length_append, List.length_cons, List.length_nil] at hg ⊢; omega)
      · -- ordinary non-zero byte: extend the current run
        have hlb := cobsGroups_length_lb rest (run ++ [b])
        have hg : cobsGroups run (b :: rest) = cobsGroups (run ++ [b]) rest := by
          simp [cobsGroups, hb, hr]
        have hguard : ¬ dstLen ≤ (pre ++ 0 :: run).length := by
          simp only [List.length_append, List.length_cons] at hlb ⊢
          simp only [List.length_nil] at hlb
          rw [hg] at hcap
          omega
        have h255 : ¬ run.length + 1 + 1 = 255 := by omega
        simp only [cobsEncAux, if_neg hb, if_neg hguard, if_neg h255]
        have hdst2 : (pre ++ 0 :: run) ++ [b] = pre ++ 0 :: (run ++ [b]) := by
          simp [List.append_assoc]
        rw [hdst2, hg]
        have := ih pre (run ++ [b]) (by simp; omega) (by rw [hg] at hcap; exact hcap)
        simpa using this

/-- The `cobs_decode` loop inverts the group decomposition: decoding the
groups of `src` (with pending run `run`) after accumulator `acc` yields
`acc ++ run ++ src`, provided the run is non-zero, at most 253 bytes, and
the output capacity admits the final length. -/
theorem cobsDecAux_groups (dstLen : Nat) (src : List Nat) :
    ∀ run acc : List Nat, (∀ x ∈ run, x ≠ 0) → run.length ≤ 253 →
      acc.length + run.length + src.length ≤ dstLen →
      cobsDecAux dstLen (cobsGroups run src) acc = some (acc ++ run ++ src) := by
  induction src with
  | nil =>
    intro run acc hrun hlen hcap
    simp only [List.length_nil] at hcap
    rw [show cobsGroups run [] = (run.length + 1) :: run by simp [cobsGroups]]
    rw [cobsDecAux]
    rw [if_neg (by omega)]
    rw [Nat.add_sub_cancel, List.take_length, List.drop_length]
    rw [if_neg (by omega), if_neg (by omega)]
    rw [if_neg (by simp only [List.any_eq_true]; push_neg; intro x hx; simpa using hrun x hx)]
    rw [if_neg (by simp)]
    rw [cobsDecAux.eq_def]
    simp
  | cons b rest ih =>
    intro run acc hrun hlen hcap
    simp only [List.length_cons] at hcap
    by_cases hb : b = 0
    · -- a zero byte became a group boundary
      subst hb
      have hne := cobsGroups_ne_nil ([] : List Nat) rest
      rw [show cobsGroups run (0 :: rest) =
            (run.length + 1) :: (run ++ cobsGroups [] rest) by simp [cobsGroups]]
      rw [cobsDecAux]
      rw [if_neg (by omega)]
      rw [Nat.add_sub_cancel]
      rw [List.take_left, List.drop_left]
      rw [if_neg (by simp only [List.length_append]; omega)]
      rw [if_neg (by omega)]
      rw [if_neg (by simp only [List.any_eq_true]; push_neg; intro x hx; simpa using hrun x hx)]
      rw [if_pos ⟨by omega, by simpa using hne⟩]
      rw [if_neg (by simp only [List.length_append]; omega)]
      have := ih [] (acc ++ run ++ [0]) (by simp) (by simp)
        (by simp only [List.length_append, List.length_cons, List.length_nil]; omega)
      rw [this]
      simp
    · by_cases hr : run.length = 253
      · -- full 254-byte block
        have h254 : (run ++ [b]).length = 254 := by simp [hr]
        have hrb : ∀ y ∈ run ++ [b], y ≠ 0 := by
          intro y hy
          rcases List.mem_append.mp hy with h | h
          · exact hrun y h
          · simpa using fun hy0 => hb (by rw [← List.mem_singleton.mp h]; exact hy0)
        rw [show cobsGroups run (b :: rest) =
              255 :: ((run ++ [b]) ++ (if rest.isEmpty then [] else cobsGroups [] rest)) by
            simp [cobsGroups, hb, hr]]
        rw [cobsDecAux]
        rw [if_neg (by omega)]
        rw [show (255 : Nat) - 1 = (run ++ [b]).length by simp [hr]]
        rw [List.take_left, List.drop_left]
        rw [if_neg (by simp only [List.length_append, h254]; omega)]
        rw [if_neg (by simp only [h254]; omega)]
        rw [if_neg (by simp only [List.any_eq_true]; push_neg; intro x hx; simpa using hrb x hx)]
        rw [if_neg (by simp)]
        by_cases he : rest.isEmpty
        · rw [List.isEmpty_iff] at he
          subst he
          simp only [List.isEmpty_nil, if_pos rfl]
          rw [cobsDecAux.eq_def]
          simp [List.append_assoc]
        · rw [if_neg he]
          have := ih [] (acc ++ (run ++ [b])) (by simp) (by simp)
            (by simp only [List.length_append, List.length_cons, List.length_nil, h254] at hcap ⊢; omega)
          rw [this]
          simp [List.append_assoc]
      · -- ordinary non-zero byte extends the run
        have hrb : ∀ y ∈ run ++ [b], y ≠ 0 := by
          intro y hy
          rcases List.mem_append.mp hy with h | h
          · exact hrun y h
          · simpa using fun hy0 => hb (by rw [← List.mem_singleton.mp h]; exact hy0)
        rw [show cobsGroups run (b :: rest) = cobsGroups (run ++ [b]) rest by
              simp [cobsGroups, hb, hr]]
        have := ih (run ++ [b]) acc hrb (by simp; omega)
          (by simp only [List.length_append, List.length_cons, List.length_nil]; omega)
        rw [this]
        simp [List.append_assoc]

/-- `cobs_encode` succeeds and produces the group decomposition whenever the
destination buffer admits the encoded length. -/
theorem cobs_encode_eq (dstLen : Nat) (src : List Nat)
    (hcap : (cobsGroups [] src).length ≤ dstLen) :
    cobs_encode dstLen src = some (cobsGroups [] src) := by
  have h1 := cobsGroups_length_lb src ([] : List Nat)
  simp only [List.length_nil] at h1
  rw [cobs_encode, if_neg (by omega)]
  have := cobsEncAux_eq dstLen src [] [] (by simp) (by simpa using hcap)
  simpa using this

/-- `cobs_decode` inverts the group decomposition whenever the output buffer
admits the decoded length. -/
theorem cobs_decode_groups (dstLen : Nat) (src : List Nat)
    (hcap : src.length ≤ dstLen) :
    cobs_decode dstLen (cobsGroups [] src) = some src := by
  rw [cobs_decode, if_neg (by simpa using cobsGroups_ne_nil ([] : List Nat) src)]
  have := cobsDecAux_groups dstLen src [] [] (by simp) (by simp) (by simpa using hcap)
  simpa using this

/-! ## Byte reassembly arithmetic -/

/-- Bitwise-or acts as addition when the low `k` bits of the left operand
are clear and the right operand fits in `k` bits. -/
theorem lor_two_pow_add (a b k : Nat) (hb : b < 2 ^ k) :
    2 ^ k * a ||| b = 2 ^ k * a + b := by
  apply Nat.eq_of_testBit_eq
  intro i
  rw [Nat.testBit_lor, Nat.testBit_mul_pow_two_add a hb i, Nat.testBit_mul_pow_two]
  by_cases h : i < k
  · simp [h, Nat.not_le.mpr h]
  · have hbf : b.testBit i = false :=
      Nat.testBit_lt_two_pow (Nat.lt_of_lt_of_le hb (Nat.pow_le_pow_right (by omega) (by omega)))
    simp [h, Nat.le_of_not_lt h, hbf]

/-- Reassembling the two big-endian length bytes recovers a 16-bit value. -/
theorem reassemble16 (n : Nat) (h : n < 2 ^ 16) :
    ((n >>> 8) % 256) <<< 8 ||| (n &&& 0xFF) = n := by
  have h1 : n &&& 0xFF = n % 256 := by
    have := Nat.and_pow_two_sub_one_eq_mod n 8
    norm_num at this
    exact this
  rw [h1, Nat.shiftLeft_eq, Nat.shiftRight_eq_div_pow]
  rw [show (n / 2 ^ 8 % 256) * 2 ^ 8 = 2 ^ 8 * (n / 2 ^ 8 % 256) by ring]
  rw [lor_two_pow_add _ _ 8 (by omega)]
  norm_num
  omega

/-- Reassembling the four big-endian CRC bytes recovers a 32-bit value. -/
theorem reassemble32 (c : Nat) (h : c < 2 ^ 32) :
    ((c >>> 24) % 256) <<< 24 ||| ((c >>> 16) % 256) <<< 16 |||
      ((c >>> 8) % 256) <<< 8 ||| (c &&& 0xFF) = c := by
  have h1 : c &&& 0xFF = c % 256 := by
    have := Nat.and_pow_two_sub_one_eq_mod c 8
    norm_num at this
    exact this
  rw [h1]
  rw [Nat.shiftLeft_eq, Nat.shiftLeft_eq, Nat.shiftLeft_eq, Nat.shiftRight_eq_div_pow,
    Nat.shiftRight_eq_div_pow, Nat.shiftRight_eq_div_pow]
  rw [show (c / 2 ^ 24 % 256) * 2 ^ 24 = 2 ^ 24 * (c / 2 ^ 24 % 256) by ring]
  rw [show (c / 2 ^ 16 % 256) * 2 ^ 16 = 2 ^ 16 * (c / 2 ^ 16 % 256) by ring]
  rw [show (c / 2 ^ 8 % 256) * 2 ^ 8 = 2 ^ 8 * (c / 2 ^ 8 % 256) by ring]
  rw [lor_two_pow_add _ _ 24 (by
    have : c / 2 ^ 16 % 256 < 256 := Nat.mod_lt _ (by norm_num)
    norm_num at this ⊢
    omega)]
  rw [show 2 ^ 24 * (c / 2 ^ 24 % 256) + 2 ^ 16 * (c / 2 ^ 16 % 256) =
        2 ^ 16 * (2 ^ 8 * (c / 2 ^ 24 % 256) + c / 2 ^ 16 % 256) by ring]
  rw [lor_two_pow_add _ _ 16 (by
    have : c / 2 ^ 8 % 256 < 256 := Nat.mod_lt _ (by norm_num)
    norm_num at this ⊢
    omega)]
  rw [show 2 ^ 16 * (2 ^ 8 * (c / 2 ^ 24 % 256) + c / 2 ^ 16 % 256) + 2 ^ 8 * (c / 2 ^ 8 % 256) =
        2 ^ 8 * (2 ^ 8 * (2 ^ 8 * (c / 2 ^ 24 % 256) + c / 2 ^ 16 % 256) + c / 2 ^ 8 % 256) by
      ring]
  rw [lor_two_pow_add _ _ 8 (by omega)]
  norm_num
  omega

/-- Every entry of the CRC-32C table is a 32-bit value. -/
theorem crc32c_table_getD_lt (i : Nat) : crc32c_table.getD i 0 < 2 ^ 32 := by
  by_cases h : i < 16
  · interval_cases i <;> decide
  · rw [List.getD_eq_getElem?_getD, List.getElem?_eq_none (by simpa [crc32c_table] using Nat.le_of_not_lt h)]
    decide

/-- One CRC step keeps the accumulator below 2^32. -/
theorem crc32c_step_lt (crc b : Nat) (h : crc < 2 ^ 32) : crc32c_step crc b < 2 ^ 32 := by
  have hc1 : (crc >>> 4) ^^^ crc32c_table.getD ((crc ^^^ b) &&& 0x0F) 0 < 2 ^ 32 := by
    apply Nat.xor_lt_two_pow _ (crc32c_table_getD_lt _)
    rw [Nat.shiftRight_eq_div_pow]
    exact Nat.lt_of_le_of_lt (Nat.div_le_self _ _) h
  unfold crc32c_step
  apply Nat.xor_lt_two_pow _ (crc32c_table_getD_lt _)
  rw [Nat.shiftRight_eq_div_pow]
  exact Nat.lt_of_le_of_lt (Nat.div_le_self _ _) hc1

/-- The running CRC stays below 2^32. -/
theorem crc32c_update_lt (data : List Nat) :
    ∀ crc : Nat, crc < 2 ^ 32 → crc32c_update crc data < 2 ^ 32 := by
  induction data with
  | nil => intro crc h; simpa [crc32c_update] using h
  | cons b rest ih =>
    intro crc h
    rw [crc32c_update, List.foldl_cons]
    exact ih (crc32c_step crc b) (crc32c_step_lt crc b h)

/-- The finished CRC is a 32-bit value. -/
theorem crc32c_lt (data : List Nat) : crc32c data < 2 ^ 32 := by
  rw [crc32c, crc32c_finalize]
  exact Nat.xor_lt_two_pow (crc32c_update_lt data _ (by norm_num)) (by norm_num)

/-- Reading past a prefix of known length indexes into the suffix. -/
theorem getD_append_right (l1 l2 : List Nat) (k : Nat) :
    (l1 ++ l2).getD (l1.length + k) 0 = l2.getD k 0 := by
  rw [List.getD_eq_getElem?_getD, List.getD_eq_getElem?_getD,
    List.getElem?_append_right (Nat.le_add_right _ _), Nat.add_sub_cancel_left]

/-- Successful `frame_encode`: with a large-enough wire buffer the result is
the COBS group stream of the payload followed by the 0x00 delimiter. -/
theorem frame_encode_eq (wireLen : Nat) (s : List Nat)
    (h1 : 0 < s.length) (h2 : s.length ≤ 1522)
    (hw : COBS_ENCODE_MAX (s.length + 6) + 1 ≤ wireLen) :
    frame_encode wireLen s = some (cobsGroups [] (frame_payload s) ++ [0]) := by
  have hplen : (frame_payload s).length = s.length + 6 := by
    simp [frame_payload]
  have hub := cobsGroups_length_ub (frame_payload s) ([] : List Nat)
  simp only [List.length_nil, Nat.zero_add, Nat.add_zero] at hub
  simp only [frame_encode]
  rw [if_neg (by simp only [FRAME_CODEC_MAX_L2_SIZE]; push_neg; omega)]
  rw [if_neg (by simp only [COBS_ENCODE_MAX, hplen] at hw ⊢; omega)]
  rw [cobs_encode_eq (wireLen - 1) (frame_payload s)
    (by simp only [COBS_ENCODE_MAX, hplen] at hw hub ⊢; omega)]

/-- Decoding the COBS group stream of a frame's payload recovers the frame:
the length field, total length and CRC all check out. -/
theorem frame_decode_payload (l2Cap : Nat) (s : List Nat)
    (h1 : 0 < s.length) (h2 : s.length ≤ 1522) (hc : s.length ≤ l2Cap) :
    frame_decode l2Cap (cobsGroups [] (frame_payload s)) = some s := by
  have hplen : (frame_payload s).length = s.length + 6 := by
    simp [frame_payload]
  have hsplit : frame_payload s =
      (((s.length >>> 8) % 256) :: (s.length &&& 0xFF) :: s) ++
        [(crc32c (((s.length >>> 8) % 256) :: (s.length &&& 0xFF) :: s) >>> 24) % 256,
         (crc32c (((s.length >>> 8) % 256) :: (s.length &&& 0xFF) :: s) >>> 16) % 256,
         (crc32c (((s.length >>> 8) % 256) :: (s.length &&& 0xFF) :: s) >>> 8) % 256,
         crc32c (((s.length >>> 8) % 256) :: (s.length &&& 0xFF) :: s) &&& 0xFF] := by
    simp [frame_payload]
  have hprelen : ((((s.length >>> 8) % 256) :: (s.length &&& 0xFF) :: s)).length = 2 + s.length := by
    simp; omega
  simp only [frame_decode]
  rw [if_neg (by simpa using cobsGroups_ne_nil ([] : List Nat) (frame_payload s))]
  rw [show (2 + FRAME_CODEC_MAX_L2_SIZE + 4 : Nat) = 1528 by simp [FRAME_CODEC_MAX_L2_SIZE]]
  rw [cobs_decode_groups 1528 (frame_payload s) (by omega)]
  dsimp only
  rw [if_neg (by simp only [FRAME_CODEC_OVERHEAD]; omega)]
  have hg0 : (frame_payload s).getD 0 0 = (s.length >>> 8) % 256 := by
    rw [hsplit]; rfl
  have hg1 : (frame_payload s).getD 1 0 = s.length &&& 0xFF := by
    rw [hsplit]; rfl
  rw [hg0, hg1, reassemble16 s.length (by omega)]
  rw [if_neg (by simp only [FRAME_CODEC_MAX_L2_SIZE]; push_neg; omega)]
  rw [if_neg (by omega)]
  have htake : (frame_payload s).take (2 + s.length) =
      ((s.length >>> 8) % 256) :: (s.length &&& 0xFF) :: s := by
    rw [hsplit]
    exact List.take_left' hprelen
  have hcr : ∀ k : Nat, (frame_payload s).getD (2 + s.length + k) 0 =
      [(crc32c (((s.length >>> 8) % 256) :: (s.length &&& 0xFF) :: s) >>> 24) % 256,
       (crc32c (((s.length >>> 8) % 256) :: (s.length &&& 0xFF) :: s) >>> 16) % 256,
       (crc32c (((s.length >>> 8) % 256) :: (s.length &&& 0xFF) :: s) >>> 8) % 256,
       crc32c (((s.length >>> 8) % 256) :: (s.length &&& 0xFF) :: s) &&& 0xFF].getD k 0 := by
    intro k
    rw [hsplit, show 2 + s.length + k =
          ((((s.length >>> 8) % 256) :: (s.length &&& 0xFF) :: s)).length + k by omega]
    exact getD_append_right _ _ k
  have hcr0 : (frame_payload s).getD (2 + s.length) 0 =
      (crc32c (((s.length >>> 8) % 256) :: (s.length &&& 0xFF) :: s) >>> 24) % 256 := by
    have := hcr 0
    simpa using this
  have hcr1 : (frame_payload s).getD (2 + s.length + 1) 0 =
      (crc32c (((s.length >>> 8) % 256) :: (s.length &&& 0xFF) :: s) >>> 16) % 256 := by
    simpa using hcr 1
  have hcr2 : (frame_payload s).getD (2 + s.length + 2) 0 =
      (crc32c (((s.length >>> 8) % 256) :: (s.length &&& 0xFF) :: s) >>> 8) % 256 := by
    simpa using hcr 2
  have hcr3 : (frame_payload s).getD (2 + s.length + 3) 0 =
      crc32c (((s.length >>> 8) % 256) :: (s.length &&& 0xFF) :: s) &&& 0xFF := by
    simpa using hcr 3
  rw [htake, hcr0, hcr1, hcr2, hcr3,
    reassemble32 (crc32c (((s.length >>> 8) % 256) :: (s.length &&& 0xFF) :: s))
      (crc32c_lt _),
    if_neg (show ¬ crc32c (((s.length >>> 8) % 256) :: (s.length &&& 0xFF) :: s) ≠
        crc32c (((s.length >>> 8) % 256) :: (s.length &&& 0xFF) :: s) by omega),
    if_neg (show ¬ l2Cap < s.length by omega)]
  rw [show frame_payload s =
        ((s.length >>> 8) % 256) :: (s.length &&& 0xFF) ::
          (s ++
            [(crc32c (((s.length >>> 8) % 256) :: (s.length &&& 0xFF) :: s) >>> 24) % 256,
             (crc32c (((s.length >>> 8) % 256) :: (s.length &&& 0xFF) :: s) >>> 16) % 256,
             (crc32c (((s.length >>> 8) % 256) :: (s.length &&& 0xFF) :: s) >>> 8) % 256,
             crc32c (((s.length >>> 8) % 256) :: (s.length &&& 0xFF) :: s) &&& 0xFF]) by
      rw [hsplit]; simp]
  rw [List.drop_succ_cons, List.drop_succ_cons, List.drop_zero]
  rw [List.take_left' rfl]

/-- C1: for every byte sequence `s` with 0 < |s| ≤ 1522, encoding `s` with
`frame_encode` and then decoding the resulting wire record (with its
trailing 0x00 delimiter stripped) with `frame_decode`, given output buffers
of sufficient size, returns exactly `s`. -/
theorem frame_roundtrip (wireLen l2Cap : Nat) (s : List Nat)
    (_hbytes : ∀ b ∈ s, b < 256)
    (h1 : 0 < s.length) (h2 : s.length ≤ 1522)
    (hw : COBS_ENCODE_MAX (s.length + 6) + 1 ≤ wireLen)
    (hc : s.length ≤ l2Cap) :
    ∃ w, frame_encode wireLen s = some w ∧ frame_decode l2Cap w.dropLast = some s := by
  refine ⟨cobsGroups [] (frame_payload s) ++ [0], frame_encode_eq wireLen s h1 h2 hw, ?_⟩
  rw [List.dropLast_concat]
  exact frame_decode_payload l2Cap s h1 h2 hc

/-- Witness for C1 at the concrete frame [1, 2, 3]. -/
theorem frame_roundtrip_witness :
    (∀ b ∈ ([1, 2, 3] : List Nat), b < 256) ∧ 0 < ([1, 2, 3] : List Nat).length ∧
    (∃ w, frame_encode 16 [1, 2, 3] = some w ∧ frame_decode 3 w.dropLast = some [1, 2, 3]) :=
  ⟨by decide, by decide,
    frame_roundtrip 16 3 [1, 2, 3] (by decide) (by decide) (by decide) (by decide) (by decide)⟩

/-- C2: for every L2 frame of length 1..1522, the wire record produced by
`frame_encode` contains no 0x00 byte anywhere in its byte-stuffed portion,
and ends with exactly one 0x00 byte (the final delimiter). -/
theorem frame_encode_wire_shape (wireLen : Nat) (s : List Nat)
    (_hbytes : ∀ b ∈ s, b < 256)
    (h1 : 0 < s.length) (h2 : s.length ≤ 1522)
    (hw : COBS_ENCODE_MAX (s.length + 6) + 1 ≤ wireLen) :
    ∃ enc, frame_encode wireLen s = some (enc ++ [0]) ∧ enc ≠ [] ∧ ∀ b ∈ enc, b ≠ 0 :=
  ⟨cobsGroups [] (frame_payload s), frame_encode_eq wireLen s h1 h2 hw,
    cobsGroups_ne_nil [] _, cobsGroups_no_zero (frame_payload s) [] (by simp)⟩

/-- Witness for C2 at the concrete frame [5]. -/
theorem frame_encode_wire_shape_witness :
    (∀ b ∈ ([5] : List Nat), b < 256) ∧
    (∃ enc, frame_encode 9 [5] = some (enc ++ [0]) ∧ enc ≠ [] ∧ ∀ b ∈ enc, b ≠ 0) :=
  ⟨by decide, frame_encode_wire_shape 9 [5] (by decide) (by decide) (by decide) (by decide)⟩

/-- C9: the CRC-32C function satisfies both reference identities: the empty
input maps to 0x00000000 and the ASCII bytes of the digit string one through
nine map to 0xE3069283. -/
theorem crc32c_identities :
    crc32c [] = 0x00000000 ∧
    crc32c [0x31, 0x32, 0x33, 0x34, 0x35, 0x36, 0x37, 0x38, 0x39] = 0xE3069283 := by
  constructor
  · decide
  · decide

/-! ## Local-IPC virtual-port device (virtual_port_device.cpp)

The C code is a state machine over the module singleton `g_vport_state`,
driven by the trait functions and parameterised by the outcomes of the
system calls it makes (`socket`, `bind`, `sendto`, `access`,
`pthread_create`).  Each trait function is embedded as a pure function of
the state plus those outcomes, returning the new state, the `BmErr` result,
and the list of externally visible effects (upward callbacks and datagrams
written to peer sockets, in order). -/

/-- `VIRTUAL_PORT_MAX_PEERS` from `virtual_port_device.h`. -/
def VIRTUAL_PORT_MAX_PEERS : Nat := 15

/-- `VIRTUAL_PORT_MAX_FRAME_LEN` from `virtual_port_device.h`
(14-byte Ethernet header + 1500-byte MTU). -/
def VIRTUAL_PORT_MAX_FRAME_LEN : Nat := 14 + 1500

/-- The `BmErr` values the device code returns. -/
inductive BmErr where
  | ok
  | einval
  | eio
deriving DecidableEq, Repr

/-- One slot of the peer table (`PeerEntry` in virtual_port_device.cpp).
`send_fd` is an `int` with sentinel -1 for "unopened". -/
structure PeerEntry where
  node_id : Nat
  send_fd : Int
  active : Bool
  sock_path : String
deriving DecidableEq, Repr

/-- Inactive zero slot. -/
def PeerEntry.empty : PeerEntry :=
  { node_id := 0, send_fd := -1, active := false, sock_path := "" }

/-- The mutable device state (`VirtualPortState` in the C file), minus the
lock and thread handle: locking serialises the operations, which the
embedding models by treating each trait call as one atomic step, and the
receive thread does not participate in any claim.  The callback block is
modelled by whether `bm_l2_init` has installed each callback pointer. -/
structure VportState where
  peers : List PeerEntry
  recv_fd : Int
  rx_running : Bool
  enabled : Bool
  own_sock_path : String
  lc_set : Bool
  rcv_set : Bool
deriving DecidableEq, Repr

/-- Externally visible effects of one trait call: upward `link_change`
callbacks and datagrams passed to `sendto` (destination path and bytes). -/
inductive VpdEvent where
  | link_change (idx : Nat) (up : Bool)
  | dgram (dest : String) (payload : List Nat)
deriving DecidableEq, Repr

/-- Outcomes of the system calls `vpd_enable` makes: the receive-socket fd
(negative on failure), whether `bind` succeeds, the per-slot `socket` fd for
each peer send socket, and whether `pthread_create` succeeds. -/
structure EnableEnv where
  recvSock : Int
  bindOk : Bool
  peerSock : Nat → Int
  threadOk : Bool

/-- `vpd_num_ports`. -/
def vpd_num_ports : Nat := VIRTUAL_PORT_MAX_PEERS

/-- Read slot `i` of the peer table. -/
def VportState.peer (s : VportState) (i : Nat) : PeerEntry :=
  s.peers.getD i PeerEntry.empty

/-- `vpd_enable`: no-op when already enabled; fails with I/O when the
receive socket or bind fails; opens a send socket for each active peer that
has none (failure tolerated); on `pthread_create` failure rolls back the
receive socket but keeps any peer sockets already opened.  Emits no events:
the C code deliberately does not call `link_change` here. -/
def vpd_enable (s : VportState) (env : EnableEnv) : BmErr × VportState × List VpdEvent :=
  if s.enabled then (BmErr.ok, s, [])
  else if env.recvSock < 0 then (BmErr.eio, s, [])
  else if ¬ env.bindOk then (BmErr.eio, s, [])
  else
    let s1 := { s with recv_fd := env.recvSock, rx_running := true }
    let s2 := { s1 with peers := s1.peers.mapIdx (fun i (p : PeerEntry) =>
      if p.active ∧ p.send_fd < 0 ∧ 0 ≤ env.peerSock i then
        { p with send_fd := env.peerSock i }
      else p) }
    if ¬ env.threadOk then
      (BmErr.eio, { s2 with rx_running := false, recv_fd := -1 }, [])
    else
      (BmErr.ok, { s2 with enabled := true }, [])

/-- `vpd_disable`: no-op when not enabled; otherwise clear the running flag,
close the receive socket, close every open peer send socket, and deliver
`link_change(i, false)` for every active slot (reading `active` only — the
C loop does not consult the slot's previous send fd). -/
def vpd_disable (s : VportState) : BmErr × VportState × List VpdEvent :=
  if ¬ s.enabled then (BmErr.ok, s, [])
  else
    let s1 := { s with
      enabled := false
      rx_running := false
      recv_fd := -1
      peers := s.peers.map (fun p =>
        if p.send_fd ≥ 0 then { p with send_fd := -1 } else p) }
    let evs := if s.lc_set then
        ((List.range VIRTUAL_PORT_MAX_PEERS).filter (fun i => (s.peer i).active)).map
          (fun i => VpdEvent.link_change i false)
      else []
    (BmErr.ok, s1, evs)

/-- `vpd_enable_port`: open the slot's send socket if it has none (`sock` is
the `socket()` outcome, negative on failure), then notify L2 the port is up.
The C code fires `link_change(idx, true)` whether or not the open
succeeded. -/
def vpd_enable_port (s : VportState) (port : Nat) (sock : Int) :
    BmErr × VportState × List VpdEvent :=
  if port < 1 ∨ VIRTUAL_PORT_MAX_PEERS < port then (BmErr.einval, s, [])
  else
    let idx := port - 1
    if ¬ (s.peer idx).active then (BmErr.einval, s, [])
    else
      let s1 := if (s.peer idx).send_fd < 0 ∧ 0 ≤ sock then
          { s with peers := s.peers.set idx { (s.peer idx) with send_fd := sock } }
        else s
      (BmErr.ok, s1, if s.lc_set then [VpdEvent.link_change idx true] else [])

/-- `vpd_disable_port`: close the slot's send socket and notify L2 the port
is down. -/
def vpd_disable_port (s : VportState) (port : Nat) :
    BmErr × VportState × List VpdEvent :=
  if port < 1 ∨ VIRTUAL_PORT_MAX_PEERS < port then (BmErr.einval, s, [])
  else
    let idx := port - 1
    if ¬ (s.peer idx).active then (BmErr.einval, s, [])
    else
      let s1 := if (s.peer idx).send_fd ≥ 0 then
          { s with peers := s.peers.set idx { (s.peer idx) with send_fd := -1 } }
        else s
      (BmErr.ok, s1, if s.lc_set then [VpdEvent.link_change idx false] else [])

/-- One flood iteration of `vpd_send` (`port == 0` loop body): skip slots
that are inactive or have no open send socket; otherwise `sendto` the
datagram `[i+1 | frame]` to the slot's path, recording `BmEIO` on failure.
`sendOk i` is the outcome of the `sendto` call for slot `i`. -/
def vpd_flood_step (s : VportState) (data : List Nat) (sendOk : Nat → Bool)
    (acc : BmErr × List VpdEvent) (i : Nat) : BmErr × List VpdEvent :=
  let p := s.peer i
  if p.active ∧ 0 ≤ p.send_fd then
    (if sendOk i then acc.1 else BmErr.eio,
     acc.2 ++ [VpdEvent.dgram p.sock_path ((i + 1) :: data)])
  else acc

/-- `vpd_send`: reject null/empty/oversize frames and ports beyond the peer
count; port 0 floods every active slot with an open socket (aggregating
`BmEIO` if any `sendto` failed); ports 1..15 unicast, failing with
`BmEINVAL` when the slot is inactive or has no open socket.  `sendOk i` is
the outcome of the `sendto` call for slot `i`.  The returned event list
holds the datagrams passed to `sendto`, in order. -/
def vpd_send (s : VportState) (data : List Nat) (port : Nat) (sendOk : Nat → Bool) :
    BmErr × List VpdEvent :=
  if data.length = 0 ∨ VIRTUAL_PORT_MAX_FRAME_LEN < data.length then (BmErr.einval, [])
  else if VIRTUAL_PORT_MAX_PEERS < port then (BmErr.einval, [])
  else if port = 0 then
    (List.range VIRTUAL_PORT_MAX_PEERS).foldl (vpd_flood_step s data sendOk) (BmErr.ok, [])
  else
    let idx := port - 1
    let p := s.peer idx
    if ¬ (p.active ∧ 0 ≤ p.send_fd) then (BmErr.einval, [])
    else
      ((if sendOk idx then BmErr.ok else BmErr.eio),
       [VpdEvent.dgram p.sock_path (port :: data)])

/-- Result of `vpd_retry_negotiation`: error code, the `*renegotiated`
output, the new state and the emitted events. -/
structure RetryResult where
  err : BmErr
  renegotiated : Bool
  state : VportState
  events : List VpdEvent
deriving DecidableEq, Repr

/-- `vpd_retry_negotiation`: `*renegotiated` starts false; out-of-range
ports fail with `BmEINVAL`; an unconfigured slot or an absent peer socket
path returns `BmOK` with no change.  Otherwise, when the slot has no open
send socket, open one (`sock` is the `socket()` outcome); when it already
has one, the C code still reports `renegotiated = true` ("so l2 can stop
the timer").  `link_change(idx, true)` fires whenever `newly_connected` was
set, i.e. whenever the slot ends up with an open socket.  `pathExists` is
the outcome of the `access(p->sock_path, F_OK)` probe. -/
def vpd_retry_negotiation (s : VportState) (port : Nat) (pathExists : Bool)
    (sock : Int) : RetryResult :=
  if port < 1 ∨ VIRTUAL_PORT_MAX_PEERS < port then
    { err := BmErr.einval, renegotiated := false, state := s, events := [] }
  else
    let idx := port - 1
    let p := s.peer idx
    if ¬ p.active then
      { err := BmErr.ok, renegotiated := false, state := s, events := [] }
    else if ¬ pathExists then
      { err := BmErr.ok, renegotiated := false, state := s, events := [] }
    else if p.send_fd < 0 then
      if 0 ≤ sock then
        { err := BmErr.ok, renegotiated := true,
          state := { s with peers := s.peers.set idx { p with send_fd := sock } },
          events := if s.lc_set then [VpdEvent.link_change idx true] else [] }
      else
        { err := BmErr.ok, renegotiated := false, state := s, events := [] }
    else
      { err := BmErr.ok, renegotiated := true, state := s,
        events := if s.lc_set then [VpdEvent.link_change idx true] else [] }

/-- `virtual_port_device_get`: build the initial state from the launch
configuration; peers beyond the 15-slot cap are dropped; every fd starts at
the -1 sentinel; the callback block starts empty (all pointers null). -/
def virtual_port_device_get (ownId : Nat) (socketDir : String) (peerIds : List Nat) : VportState :=
  let n := min peerIds.length VIRTUAL_PORT_MAX_PEERS
  { peers := (List.range VIRTUAL_PORT_MAX_PEERS).map (fun i =>
      if i < n then
        { node_id := peerIds.getD i 0, send_fd := -1, active := true,
          sock_path := socketDir ++ "/bm_sbc_" ++ toString (peerIds.getD i 0) ++ ".sock" }
      else PeerEntry.empty),
    recv_fd := -1, rx_running := false, enabled := false,
    own_sock_path := socketDir ++ "/bm_sbc_" ++ toString ownId ++ ".sock",
    lc_set := false, rcv_set := false }

/-- `bm_l2_init` writing the upward callback pointers into the device's
callback block (the device only ever reads whether they are non-null). -/
def installCallbacks (s : VportState) : VportState :=
  { s with lc_set := true, rcv_set := true }

/-- C8: for every call to send on the local-IPC device, if the port exceeds
the device's 15 ports, or the frame length is zero, or the frame length
exceeds 1514 bytes, then send returns the invalid-argument error and
transmits nothing. -/
theorem vpd_send_invalid_args (s : VportState) (data : List Nat) (port : Nat)
    (sendOk : Nat → Bool)
    (h : VIRTUAL_PORT_MAX_PEERS < port ∨ data.length = 0 ∨
      VIRTUAL_PORT_MAX_FRAME_LEN < data.length) :
    vpd_send s data port sendOk = (BmErr.einval, []) := by
  rcases h with h | h | h
  · simp only [vpd_send]
    by_cases h0 : data.length = 0 ∨ VIRTUAL_PORT_MAX_FRAME_LEN < data.length
    · rw [if_pos h0]
    · rw [if_neg h0, if_pos h]
  · simp only [vpd_send]
    rw [if_pos (Or.inl h)]
  · simp only [vpd_send]
    rw [if_pos (Or.inr h)]

/-- Witness for C8: port 16 on a freshly constructed device. -/
theorem vpd_send_invalid_args_witness :
    (VIRTUAL_PORT_MAX_PEERS < 16 ∨ ([7] : List Nat).length = 0 ∨
      VIRTUAL_PORT_MAX_FRAME_LEN < ([7] : List Nat).length) ∧
    vpd_send (virtual_port_device_get 1 "/tmp" [2]) [7] 16 (fun _ => true) =
      (BmErr.einval, []) :=
  ⟨Or.inl (by decide),
   vpd_send_invalid_args (virtual_port_device_get 1 "/tmp" [2]) [7] 16 (fun _ => true)
     (Or.inl (by decide))⟩

/-- C10: a unicast send with otherwise valid arguments on a slot that is
inactive or whose outbound handle is unopened (sentinel -1) returns the
invalid-argument error — not the I/O error — and emits no datagram. -/
theorem vpd_send_unicast_closed (s : VportState) (data : List Nat) (port : Nat)
    (sendOk : Nat → Bool)
    (hp1 : 1 ≤ port) (hp2 : port ≤ 15)
    (hd1 : 1 ≤ data.length) (hd2 : data.length ≤ 1514)
    (hslot : (s.peer (port - 1)).active = false ∨ (s.peer (port - 1)).send_fd < 0) :
    vpd_send s data port sendOk = (BmErr.einval, []) := by
  simp only [vpd_send, VIRTUAL_PORT_MAX_FRAME_LEN, VIRTUAL_PORT_MAX_PEERS]
  rw [if_neg (by push_neg; omega), if_neg (by omega), if_neg (by omega)]
  rw [if_pos (by
    rintro ⟨ha, hf⟩
    rcases hslot with h | h
    · rw [h] at ha; exact Bool.false_ne_true ha
    · omega)]

/-- Witness for C10: port 1 of a freshly constructed device, whose slot is
configured but still has the -1 sentinel. -/
theorem vpd_send_unicast_closed_witness :
    ((virtual_port_device_get 1 "/tmp" [2]).peer 0).send_fd < 0 ∧
    vpd_send (virtual_port_device_get 1 "/tmp" [2]) [7] 1 (fun _ => true) =
      (BmErr.einval, []) :=
  ⟨by decide,
   vpd_send_unicast_closed (virtual_port_device_get 1 "/tmp" [2]) [7] 1 (fun _ => true)
     (by decide) (by decide) (by decide) (by decide) (Or.inr (by decide))⟩

/-- All-success syscall outcomes for `vpd_enable` (receive fd 3, peer send
sockets 10, 11, ...). -/
def envAllOk : EnableEnv :=
  { recvSock := 3, bindOk := true, peerSock := fun i => 10 + Int.ofNat i, threadOk := true }

/-- A reachable enabled state with two configured peers whose send sockets
are open: construct with peers 2 and 3, install the callbacks, enable. -/
def c3s : VportState :=
  (vpd_enable (installCallbacks (virtual_port_device_get 1 "/tmp" [2, 3])) envAllOk).2.1

/-- A `sendto` outcome where only slot 0's write succeeds. -/
def c3ok : Nat → Bool := fun i => i == 0

/-- Counterexample to C3: on a flood send where the write to active slot 0
succeeded (its datagram was handed to `sendto` and `sendto` returned
success) but the write to active slot 1 failed, `vpd_send` returns the I/O
error, not success. -/
theorem vpd_send_flood_counterexample :
    (c3s.peer 0).active = true ∧ 0 ≤ (c3s.peer 0).send_fd ∧ c3ok 0 = true ∧
    VpdEvent.dgram (c3s.peer 0).sock_path (1 :: [7]) ∈ (vpd_send c3s [7] 0 c3ok).2 ∧
    (vpd_send c3s [7] 0 c3ok).1 ≠ BmErr.ok := by decide

/-- Error aggregation of the flood loop: the fold returns `BmOK` iff the
accumulator started at `BmOK` and every attempted `sendto` succeeded. -/
theorem vpd_flood_fold_ok (s : VportState) (data : List Nat) (sendOk : Nat → Bool) :
    ∀ (l : List Nat) (acc : BmErr × List VpdEvent),
      (l.foldl (vpd_flood_step s data sendOk) acc).1 = BmErr.ok ↔
        (acc.1 = BmErr.ok ∧
          ∀ i ∈ l, ((s.peer i).active = true ∧ 0 ≤ (s.peer i).send_fd) → sendOk i = true) := by
  intro l
  induction l with
  | nil => intro acc; simp
  | cons j rest ih =>
    intro acc
    rw [List.foldl_cons, ih]
    simp only [List.mem_cons]
    constructor
    · rintro ⟨hacc, hall⟩
      simp only [vpd_flood_step] at hacc
      by_cases hatt : (s.peer j).active = true ∧ 0 ≤ (s.peer j).send_fd
      · rw [if_pos hatt] at hacc
        by_cases hok : sendOk j = true
        · rw [if_pos hok] at hacc
          exact ⟨hacc, fun i hi h => hi.elim (fun he => he ▸ hok) (fun hm => hall i hm h)⟩
        · rw [if_neg hok] at hacc
          exact absurd hacc (by simp)
      · rw [if_neg hatt] at hacc
        refine ⟨hacc, fun i hi h => ?_⟩
        rcases hi with he | hm
        · exact absurd (he ▸ h) hatt
        · exact hall i hm h
    · rintro ⟨hacc, hall⟩
      refine ⟨?_, fun i hm h => hall i (Or.inr hm) h⟩
      simp only [vpd_flood_step]
      by_cases hatt : (s.peer j).active = true ∧ 0 ≤ (s.peer j).send_fd
      · rw [if_pos hatt, if_pos (hall j (Or.inl rfl) hatt)]
        exact hacc
      · rw [if_neg hatt]
        exact hacc

/-- C3 (amended): a flood send with a valid frame returns success iff the
datagram write succeeded for every active slot with an open send socket; a
single failure makes the whole flood report the I/O error, even when other
writes succeeded. -/
theorem vpd_send_flood_ok_iff (s : VportState) (data : List Nat) (sendOk : Nat → Bool)
    (hd1 : 1 ≤ data.length) (hd2 : data.length ≤ 1514) :
    (vpd_send s data 0 sendOk).1 = BmErr.ok ↔
      ∀ i < VIRTUAL_PORT_MAX_PEERS,
        ((s.peer i).active = true ∧ 0 ≤ (s.peer i).send_fd) → sendOk i = true := by
  simp only [vpd_send, VIRTUAL_PORT_MAX_FRAME_LEN]
  rw [if_neg (by push_neg; omega), if_neg (by simp [VIRTUAL_PORT_MAX_PEERS]), if_pos trivial]
  rw [vpd_flood_fold_ok]
  simp [List.mem_range]

/-- Witness for the amended C3 on a concrete enabled two-peer device where
every write succeeds. -/
theorem vpd_send_flood_ok_iff_witness :
    (vpd_send c3s [7] 0 (fun _ => true)).1 = BmErr.ok ↔
      ∀ i < VIRTUAL_PORT_MAX_PEERS,
        ((c3s.peer i).active = true ∧ 0 ≤ (c3s.peer i).send_fd) → (fun _ : Nat => true) i = true :=
  vpd_send_flood_ok_iff c3s [7] (fun _ => true) (by decide) (by decide)

/-- A slot that reads back as active lies inside the peer table. -/
theorem peer_active_lt (s : VportState) (i : Nat)
    (h : (s.peer i).active = true) : i < s.peers.length := by
  by_contra hle
  have hempty : s.peer i = PeerEntry.empty := by
    simp [VportState.peer, List.getD_eq_getElem?_getD,
      List.getElem?_eq_none (by omega : s.peers.length ≤ i)]
  rw [hempty] at h
  exact Bool.false_ne_true h

/-- Reading back a slot just written. -/
theorem peer_set_self (s : VportState) (i : Nat) (p : PeerEntry)
    (h : i < s.peers.length) :
    ({ s with peers := s.peers.set i p } : VportState).peer i = p := by
  simp [VportState.peer, List.getD_eq_getElem?_getD, List.getElem?_set_self h]

/-- Counterexample to C4: on a reachable state whose slot-0 outbound handle
is already open, `retry_negotiation(1, ...)` leaves the state unchanged (no
link transitioned up as a result of the call) yet still sets
`renegotiated = true`. -/
theorem vpd_retry_counterexample :
    0 ≤ (c3s.peer 0).send_fd ∧
    (vpd_retry_negotiation c3s 1 true 7).state = c3s ∧
    (vpd_retry_negotiation c3s 1 true 7).renegotiated = true := by decide

/-- C4 (amended): whenever `retry_negotiation(port, &renegotiated)` returns
on an in-range port, `renegotiated` is true iff the slot is configured, the
peer's socket path exists, and the slot's outbound handle is open after the
call — whether it was newly opened by this call or was already open
before. -/
theorem vpd_retry_renegotiated_iff (s : VportState) (port : Nat) (pathExists : Bool)
    (sock : Int) (hp1 : 1 ≤ port) (hp2 : port ≤ VIRTUAL_PORT_MAX_PEERS) :
    (vpd_retry_negotiation s port pathExists sock).renegotiated = true ↔
      ((s.peer (port - 1)).active = true ∧ pathExists = true ∧
        0 ≤ ((vpd_retry_negotiation s port pathExists sock).state.peer (port - 1)).send_fd) := by
  simp only [VIRTUAL_PORT_MAX_PEERS] at hp2
  simp only [vpd_retry_negotiation, VIRTUAL_PORT_MAX_PEERS]
  rw [if_neg (by push_neg; omega)]
  by_cases ha : (s.peer (port - 1)).active = true
  · rw [if_neg (by simpa using ha)]
    by_cases hpx : pathExists = true
    · rw [if_neg (by simpa using hpx)]
      by_cases hfd : (s.peer (port - 1)).send_fd < 0
      · rw [if_pos hfd]
        by_cases hs : 0 ≤ sock
        · rw [if_pos hs]
          simp only [ha, hpx, true_and]
          rw [peer_set_self s (port - 1) _ (peer_active_lt s (port - 1) ha)]
          simpa using hs
        · rw [if_neg hs]
          simp only [ha, hpx, true_and]
          constructor
          · intro h; exact absurd h (by simp)
          · intro h; omega
      · rw [if_neg hfd]
        simp only [ha, hpx, true_and]
        constructor
        · intro _; omega
        · intro _; trivial
    · rw [if_pos (by simpa using hpx)]
      simp [hpx]
  · rw [if_pos (by simpa using ha)]
    simp [ha]

/-- Witness for the amended C4: retrying a configured port with an existing
peer path and a fresh socket on a freshly constructed device. -/
theorem vpd_retry_renegotiated_iff_witness :
    (vpd_retry_negotiation (virtual_port_device_get 1 "/tmp" [2]) 1 true 7).renegotiated = true ↔
      (((virtual_port_device_get 1 "/tmp" [2]).peer 0).active = true ∧ true = true ∧
        0 ≤ (((vpd_retry_negotiation (virtual_port_device_get 1 "/tmp" [2]) 1 true 7).state.peer
          0).send_fd)) :=
  vpd_retry_renegotiated_iff (virtual_port_device_get 1 "/tmp" [2]) 1 true 7
    (by decide) (by decide)

/-- A constructed one-peer device with callbacks installed: slot 0 is
configured, its outbound handle unopened. -/
def c5s : VportState := installCallbacks (virtual_port_device_get 1 "/tmp" [2])

/-- Counterexample to C5: when `enable_port(1)` runs on a configured slot
whose `socket()` call fails (outcome -1), the outbound handle stays at the
-1 sentinel, yet `link_change(0, true)` is still delivered — a link-up
notification for a port whose outbound handle failed to open. -/
theorem vpd_enable_port_linkup_counterexample :
    (vpd_enable_port c5s 1 (-1)).2.2 = [VpdEvent.link_change 0 true] ∧
    ((vpd_enable_port c5s 1 (-1)).2.1.peer 0).send_fd = -1 := by decide

/-- C5 (amended): every link-up notification names a configured port, and
one delivered by `retry_negotiation` additionally guarantees that the
port's outbound handle is open after the call; `enable_port`, however,
delivers link-up for a configured port even when opening its handle
failed. -/
theorem vpd_linkup_discipline :
    (∀ (s : VportState) (port : Nat) (pathExists : Bool) (sock : Int) (i : Nat),
      VpdEvent.link_change i true ∈ (vpd_retry_negotiation s port pathExists sock).events →
        ((vpd_retry_negotiation s port pathExists sock).state.peer i).active = true ∧
          0 ≤ ((vpd_retry_negotiation s port pathExists sock).state.peer i).send_fd) ∧
    (∀ (s : VportState) (port : Nat) (sock : Int) (i : Nat),
      VpdEvent.link_change i true ∈ (vpd_enable_port s port sock).2.2 →
        (s.peer i).active = true) := by
  constructor
  · intro s port pathExists sock i hmem
    simp only [vpd_retry_negotiation] at hmem ⊢
    by_cases hrange : port < 1 ∨ VIRTUAL_PORT_MAX_PEERS < port
    · rw [if_pos hrange] at hmem ⊢
      simp at hmem
    · rw [if_neg hrange] at hmem ⊢
      by_cases ha : (s.peer (port - 1)).active = true
      · rw [if_neg (by simpa using ha)] at hmem ⊢
        by_cases hpx : pathExists = true
        · rw [if_neg (by simpa using hpx)] at hmem ⊢
          by_cases hfd : (s.peer (port - 1)).send_fd < 0
          · rw [if_pos hfd] at hmem ⊢
            by_cases hs : 0 ≤ sock
            · rw [if_pos hs] at hmem ⊢
              have hlt := peer_active_lt s (port - 1) ha
              by_cases hlc : s.lc_set = true
              · rw [if_pos hlc] at hmem
                simp only [List.mem_singleton, VpdEvent.link_change.injEq] at hmem
                rcases hmem with ⟨hip, -⟩
                subst hip
                rw [peer_set_self s (port - 1) _ hlt]
                exact ⟨ha, hs⟩
              · rw [if_neg hlc] at hmem
                simp at hmem
            · rw [if_neg hs] at hmem
              simp at hmem
          · rw [if_neg hfd] at hmem ⊢
            by_cases hlc : s.lc_set = true
            · rw [if_pos hlc] at hmem
              simp only [List.mem_singleton, VpdEvent.link_change.injEq] at hmem
              rcases hmem with ⟨hip, -⟩
              subst hip
              exact ⟨ha, by dsimp only; omega⟩
            · rw [if_neg hlc] at hmem
              simp at hmem
        · rw [if_pos (by simpa using hpx)] at hmem
          simp at hmem
      · rw [if_pos (by simpa using ha)] at hmem
        simp at hmem
  · intro s port sock i hmem
    simp only [vpd_enable_port] at hmem
    by_cases hrange : port < 1 ∨ VIRTUAL_PORT_MAX_PEERS < port
    · rw [if_pos hrange] at hmem
      simp at hmem
    · rw [if_neg hrange] at hmem
      by_cases ha : (s.peer (port - 1)).active = true
      · rw [if_neg (by simpa using ha)] at hmem
        by_cases hlc : s.lc_set = true
        · rw [if_pos hlc] at hmem
          simp only [List.mem_singleton, VpdEvent.link_change.injEq] at hmem
          rcases hmem with ⟨hip, -⟩
          subst hip
          exact ha
        · rw [if_neg hlc] at hmem
          simp at hmem
      · rw [if_pos (by simpa using ha)] at hmem
        simp at hmem

/-- Witness for the amended C5: a renegotiation that delivers link-up on
slot 0 of a one-peer device, and an `enable_port` link-up on the same
device. -/
theorem vpd_linkup_discipline_witness :
    (((vpd_retry_negotiation c5s 1 true 7).state.peer 0).active = true ∧
      0 ≤ ((vpd_retry_negotiation c5s 1 true 7).state.peer 0).send_fd) ∧
    (c5s.peer 0).active = true :=
  ⟨vpd_linkup_discipline.1 c5s 1 true 7 0 (by decide),
   vpd_linkup_discipline.2 c5s 1 (-1) 0 (by decide)⟩

/-- The one-peer device after a fully successful `enable`: slot 0 has an
open send socket, but no link_change has ever been delivered. -/
def c6s : VportState := (vpd_enable c5s envAllOk).2.1

/-- Counterexample to C6: starting from the constructed one-peer device with
callbacks installed, `enable` delivers no link_change at all — so no slot
is link-up — yet `disable` still delivers `link_change(0, false)` for the
configured slot 0. -/
theorem vpd_disable_counterexample :
    (vpd_enable c5s envAllOk).2.2 = [] ∧
    (vpd_disable c6s).2.2 = [VpdEvent.link_change 0 false] := by decide

/-- C6 (amended): after `disable()` returns on an enabled device with the
link_change callback installed, exactly one `link_change(i, false)` has been
delivered for every configured (active) slot `i` — whether or not that slot
was link-up — and none for unconfigured slots. -/
theorem vpd_disable_events (s : VportState) (h1 : s.enabled = true) (h2 : s.lc_set = true) :
    (vpd_disable s).2.2 =
      ((List.range VIRTUAL_PORT_MAX_PEERS).filter (fun i => (s.peer i).active)).map
        (fun i => VpdEvent.link_change i false) := by
  simp [vpd_disable, h1, h2]

/-- Witness for the amended C6 on the enabled one-peer device. -/
theorem vpd_disable_events_witness :
    (vpd_disable c6s).2.2 =
      ((List.range VIRTUAL_PORT_MAX_PEERS).filter (fun i => (c6s.peer i).active)).map
        (fun i => VpdEvent.link_change i false) :=
  vpd_disable_events c6s (by decide) (by decide)

/-! ## Operation traces for the enable / renegotiation-tick flow -/

/-- `vpd_enable` emits no events on any of its paths. -/
theorem vpd_enable_events (s : VportState) (env : EnableEnv) :
    (vpd_enable s env).2.2 = [] := by
  simp only [vpd_enable]
  split_ifs <;> rfl

/-- `vpd_disable` never emits a link-up event. -/
theorem vpd_disable_no_linkup (s : VportState) (i : Nat) :
    VpdEvent.link_change i true ∉ (vpd_disable s).2.2 := by
  intro hmem
  simp only [vpd_disable] at hmem
  split_ifs at hmem <;> simp at hmem

/-- Every event the flood loop adds to the accumulator is a datagram. -/
theorem vpd_flood_fold_events (s : VportState) (data : List Nat) (sendOk : Nat → Bool) :
    ∀ (l : List Nat) (acc : BmErr × List VpdEvent),
      ∀ e ∈ (l.foldl (vpd_flood_step s data sendOk) acc).2,
        e ∈ acc.2 ∨ ∃ d p, e = VpdEvent.dgram d p := by
  intro l
  induction l with
  | nil => intro acc e he; exact Or.inl he
  | cons j rest ih =>
    intro acc e he
    rw [List.foldl_cons] at he
    rcases ih (vpd_flood_step s data sendOk acc j) e he with hin | hd
    · have hstep : (vpd_flood_step s data sendOk acc j).2 =
          acc.2 ++ [VpdEvent.dgram (s.peer j).sock_path ((j + 1) :: data)] ∨
          (vpd_flood_step s data sendOk acc j).2 = acc.2 := by
        simp only [vpd_flood_step]
        split_ifs <;> simp
      rcases hstep with h | h
      · rw [h] at hin
        rcases List.mem_append.mp hin with h2 | h2
        · exact Or.inl h2
        · exact Or.inr ⟨_, _, List.mem_singleton.mp h2⟩
      · rw [h] at hin
        exact Or.inl hin
    · exact Or.inr hd

/-- `vpd_send` never emits a link_change event (its only events are the
datagrams passed to `sendto`). -/
theorem vpd_send_no_linkchange (s : VportState) (data : List Nat) (port : Nat)
    (sendOk : Nat → Bool) (i : Nat) (up : Bool) :
    VpdEvent.link_change i up ∉ (vpd_send s data port sendOk).2 := by
  intro hmem
  simp only [vpd_send] at hmem
  split_ifs at hmem
  all_goals try simp at hmem
  rcases vpd_flood_fold_events s data sendOk (List.range VIRTUAL_PORT_MAX_PEERS)
    (BmErr.ok, []) _ hmem with hin | ⟨d, p, he⟩
  · simp at hin
  · exact VpdEvent.noConfusion he

/-- The device operations the L2 bring-up flow drives: `enable`, traffic,
renegotiation ticks, `disable` (with the syscall outcomes each consumes). -/
inductive VpdOp where
  | enable (env : EnableEnv)
  | disable
  | send (data : List Nat) (port : Nat) (sendOk : Nat → Bool)
  | retry (port : Nat) (pathExists : Bool) (sock : Int)

/-- Whether an operation is a renegotiation tick. -/
def VpdOp.isRetry : VpdOp → Bool
  | VpdOp.retry _ _ _ => true
  | _ => false

/-- One operation step: the successor state and the events it emits. -/
def vpdStep (s : VportState) : VpdOp → VportState × List VpdEvent
  | VpdOp.enable env => ((vpd_enable s env).2.1, (vpd_enable s env).2.2)
  | VpdOp.disable => ((vpd_disable s).2.1, (vpd_disable s).2.2)
  | VpdOp.send data port sendOk => (s, (vpd_send s data port sendOk).2)
  | VpdOp.retry port px sock =>
      ((vpd_retry_negotiation s port px sock).state,
       (vpd_retry_negotiation s port px sock).events)

/-- Run a sequence of operations, concatenating the emitted events. -/
def vpdTrace (s : VportState) : List VpdOp → VportState × List VpdEvent
  | [] => (s, [])
  | op :: ops =>
      ((vpdTrace (vpdStep s op).1 ops).1,
       (vpdStep s op).2 ++ (vpdTrace (vpdStep s op).1 ops).2)

/-- C7: `enable()` delivers no link_change callback during its execution,
and in any run of the bring-up flow (enable, sends, disable, renegotiation
ticks) a `link_change(port, true)` can only ever be emitted by a
`retry_negotiation` call: a trace containing no renegotiation tick contains
no link-up event at all. -/
theorem vpd_enable_no_linkchange :
    (∀ (s : VportState) (env : EnableEnv), (vpd_enable s env).2.2 = []) ∧
    (∀ (s : VportState) (ops : List VpdOp), (∀ op ∈ ops, op.isRetry = false) →
      ∀ i, VpdEvent.link_change i true ∉ (vpdTrace s ops).2) := by
  refine ⟨vpd_enable_events, ?_⟩
  intro s ops
  induction ops generalizing s with
  | nil =>
    intro _ i
    simp [vpdTrace]
  | cons op rest ih =>
    intro hops i hmem
    simp only [vpdTrace] at hmem
    rcases List.mem_append.mp hmem with hm | hm
    · cases op with
      | enable env =>
        rw [show vpdStep s (VpdOp.enable env) =
              ((vpd_enable s env).2.1, (vpd_enable s env).2.2) from rfl,
            vpd_enable_events] at hm
        simp at hm
      | disable =>
        exact vpd_disable_no_linkup s i hm
      | send data port sendOk =>
        exact vpd_send_no_linkchange s data port sendOk i true hm
      | retry port px sock =>
        have := hops _ (List.mem_cons_self _ _)
        simp [VpdOp.isRetry] at this
    · exact ih _ (fun op' h' => hops op' (List.mem_cons_of_mem _ h')) i hm

/-- Witness for C7: a concrete enable emits nothing, and a retry-free trace
contains no link-up. -/
theorem vpd_enable_no_linkchange_witness :
    (vpd_enable c5s envAllOk).2.2 = [] ∧
    VpdEvent.link_change 0 true ∉ (vpdTrace c5s [VpdOp.disable]).2 :=
  ⟨vpd_enable_no_linkchange.1 c5s envAllOk,
   vpd_enable_no_linkchange.2 c5s [VpdOp.disable]
     (by intro op hop; simp at hop; subst hop; rfl) 0⟩
